import Mathlib

/-!
Verification development for the TimingPredict message-passing timing model
(model.py).  The graph is a heterogeneous directed multigraph over a single
node namespace ("pins") with three edge relations: net_out (drive -> sink),
net_in (sink -> drive) and cell_out (cell input pin -> cell output pin).

The embedding is a direct translation of model.py:
* tensors of per-node / per-edge features become functions into `List Rat`;
* each learned MLP (a pure function of its input given fixed weights, see
  class MLP) becomes an opaque function parameter of the component's
  parameter structure; the logistic sigmoid, being transcendental, is kept
  as a function parameter as well — no claim depends on its values;
* DGL's message passing primitives are translated to explicit folds:
  update_all / pull / send_and_recv with a builtin sum (resp. max) reducer
  write, for every targeted node, the elementwise sum (resp. max) of the
  messages on its incoming edges of the given type, and fill the feature of
  targeted nodes with no incoming message with zeros (DGL's documented
  behaviour);
* g.local_scope() is translated as: the forward body runs on a scoped copy
  of the graph's persistent feature store and the store itself is returned
  unchanged to the caller;
* torch reshape / broadcasting constraints of the batched LUT lookup in
  SignalProp.edge_msg_cell (lines 141-151 of model.py) are modelled
  explicitly: the flat batched matmul with its hardcoded reshape group `4`
  is translated index-by-index, and a shape-admissibility check
  `cellShapeOk` guards the computation; a shape failure (a torch runtime
  error) is modelled as `none`.
-/

namespace TimingPredict

/-- Elementwise view of a zero tensor row of width n. -/
def zeros (n : ℕ) : List ℚ := List.replicate n 0

/-- Elementwise tensor addition (same-width rows). -/
def addVec (a b : List ℚ) : List ℚ := List.zipWith (fun x y => x + y) a b

/-- Elementwise tensor max (same-width rows). -/
def maxVec (a b : List ℚ) : List ℚ := List.zipWith (fun x y => max x y) a b

/-- DGL sum-reducer over a batch of messages: elementwise sum, zeros when the
batch is empty (DGL zero-fills nodes with no incoming message). -/
def sumVecs (w : ℕ) (l : List (List ℚ)) : List ℚ := l.foldl addVec (zeros w)

/-- DGL max-reducer over a batch of messages: elementwise max, zeros when the
batch is empty (DGL zero-fills nodes with no incoming message). -/
def maxVecs (w : ℕ) (l : List (List ℚ)) : List ℚ :=
  match l with
  | [] => zeros w
  | x :: xs => xs.foldl maxVec x

/-- A one-hot row of width n with the unit at position i. -/
def oneHot (n i : ℕ) : List ℚ := (List.range n).map (fun k => if k = i then (1 : ℚ) else 0)

/-- A typed edge: endpoints plus its per-edge feature row (edges.data['ef']). -/
structure HEdge where
  src : ℕ
  dst : ℕ
  ef : List ℚ
deriving DecidableEq

/-- The heterogeneous timing graph handed in by the data-loading collaborator:
edge lists per relation, the persistent ground-truth node feature n_atslew.
The persistent feature stores are immutable for a forward pass
(g.local_scope()). -/
structure HGraph where
  numNodes : ℕ
  net_out : List HEdge
  net_in : List HEdge
  cell_out : List HEdge
  n_atslew : ℕ → List ℚ

/-- The topological schedule ts: named node subsets plus the ordered levels. -/
structure TS where
  topo : List (List ℕ)
  pi_nodes : List ℕ
  input_nodes : List ℕ
  output_nodes : List ℕ
  output_nodes_nonpi : List ℕ

/-- Parameters (dimensions and learned transforms) of one NetConv layer. -/
structure NCParams where
  in_nf : ℕ
  in_ef : ℕ
  out_nf : ℕ
  h1 : ℕ
  h2 : ℕ
  MLP_msg_i2o : List ℚ → List ℚ
  MLP_reduce_o : List ℚ → List ℚ
  MLP_msg_o2i : List ℚ → List ℚ
  sigmoid : ℚ → ℚ

namespace NetConv

/-- NetConv.edge_msg_i: message on a net_out edge (drive -> sink),
cat [src nf, dst nf, ef] through MLP_msg_o2i. -/
def edge_msg_i (Q : NCParams) (nfv : ℕ → List ℚ) (e : HEdge) : List ℚ :=
  Q.MLP_msg_o2i (nfv e.src ++ nfv e.dst ++ e.ef)

/-- NetConv.edge_msg_o before the split: cat [src nf, dst nf, ef] through
MLP_msg_i2o (width 1 + h1 + h2). -/
def edge_msg_o_raw (Q : NCParams) (nfv : ℕ → List ℚ) (e : HEdge) : List ℚ :=
  Q.MLP_msg_i2o (nfv e.src ++ nfv e.dst ++ e.ef)

/-- The sigmoid-activated gate k of edge_msg_o (column 0 of the split). -/
def gate (Q : NCParams) (nfv : ℕ → List ℚ) (e : HEdge) : ℚ :=
  Q.sigmoid ((edge_msg_o_raw Q nfv e).getD 0 0)

/-- efo1 = f1 * k on a net_in edge. -/
def efo1 (Q : NCParams) (nfv : ℕ → List ℚ) (e : HEdge) : List ℚ :=
  (((edge_msg_o_raw Q nfv e).drop 1).take Q.h1).map (fun x => x * gate Q nfv e)

/-- efo2 = f2 * k on a net_in edge. -/
def efo2 (Q : NCParams) (nfv : ℕ → List ℚ) (e : HEdge) : List ℚ :=
  (((edge_msg_o_raw Q nfv e).drop (1 + Q.h1)).take Q.h2).map (fun x => x * gate Q nfv e)

/-- nfo1: sum-reduction of the efo1 messages over the incoming net_in edges of
a node (update_all with fn.sum); zeros when the node has no incoming net_in
edge. -/
def nfo1 (Q : NCParams) (g : HGraph) (nfv : ℕ → List ℚ) (n : ℕ) : List ℚ :=
  sumVecs Q.h1 ((g.net_in.filter (fun e => e.dst == n)).map (efo1 Q nfv))

/-- nfo2: max-reduction of the efo2 messages over the incoming net_in edges of
a node (update_all with fn.max); zeros when the node has no incoming net_in
edge. -/
def nfo2 (Q : NCParams) (g : HGraph) (nfv : ℕ → List ℚ) (n : ℕ) : List ℚ :=
  maxVecs Q.h2 ((g.net_in.filter (fun e => e.dst == n)).map (efo2 Q nfv))

/-- update_all over net_out with fn.sum: every node receives the sum of the
edge_msg_i messages on its incoming net_out edges (zeros when it has none). -/
def new_nf_i (Q : NCParams) (g : HGraph) (nfv : ℕ → List ℚ) (n : ℕ) : List ℚ :=
  sumVecs Q.out_nf ((g.net_out.filter (fun e => e.dst == n)).map (edge_msg_i Q nfv))

/-- NetConv.node_reduce_o: cat [nf, nfo1, nfo2] through MLP_reduce_o. -/
def node_reduce_o (Q : NCParams) (g : HGraph) (nfv : ℕ → List ℚ) (n : ℕ) : List ℚ :=
  Q.MLP_reduce_o (nfv n ++ nfo1 Q g nfv n ++ nfo2 Q g nfv n)

/-- NetConv.forward: drive->sink broadcast writes new_nf for every node, then
apply_nodes overwrites new_nf at ts.output_nodes with node_reduce_o.  The
second component is the graph's persistent store after the call: local_scope
discards every transient write, so it is the input graph itself. -/
def forward (Q : NCParams) (g : HGraph) (ts : TS) (nfv : ℕ → List ℚ) :
    (ℕ → List ℚ) × HGraph :=
  ((fun n => if n ∈ ts.output_nodes then node_reduce_o Q g nfv n else new_nf_i Q g nfv n), g)

end NetConv

/-- Parameters (dimensions and learned transforms) of the SignalProp stage. -/
structure SPParams where
  in_nf : ℕ
  in_cell_num_luts : ℕ
  in_cell_lut_sz : ℕ
  out_nf : ℕ
  out_cef : ℕ
  h1 : ℕ
  h2 : ℕ
  lut_dup : ℕ
  MLP_netprop : List ℚ → List ℚ
  MLP_lut_query : List ℚ → List ℚ
  MLP_lut_attention : List ℚ → List ℚ
  MLP_cellarc_msg : List ℚ → List ℚ
  MLP_cellreduce : List ℚ → List ℚ
  sigmoid : ℚ → ℚ

/-- Transient per-pass state of SignalProp.forward inside g.local_scope():
the new_nf node column and the efce column over cell_out edges (indexed by
position in g.cell_out). -/
structure SPState where
  new_nf : ℕ → List ℚ
  efce : ℕ → List ℚ

namespace SignalProp

/-- The cell_out edge stored at position t (well-defined for t below the list
length; out-of-range reads never occur in the modelled pipeline). -/
def cellEdge (g : HGraph) (t : ℕ) : HEdge := g.cell_out.getD t ⟨0, 0, []⟩

/-- The prediction column a stage reads: the ground truth n_atslew when
groundtruth=True, otherwise the running new_nf (lines 105-108 / 119-122). -/
def lastReader (g : HGraph) (gt : Bool) (s : SPState) : ℕ → List ℚ :=
  if gt then g.n_atslew else s.new_nf

/-- SignalProp.edge_msg_net: cat [last prediction of the drive pin, drive nf,
sink nf] through MLP_netprop. -/
def edge_msg_net (P : SPParams) (read nfv : ℕ → List ℚ) (e : HEdge) : List ℚ :=
  P.MLP_netprop (read e.src ++ nfv e.src ++ nfv e.dst)

/-- prop_net: g.pull(frontier, edge_msg_net, fn.sum, etype='net_out') — each
frontier node's new_nf becomes the sum of the messages on its incoming
net_out edges (zeros when it has none); every other node is untouched.
Messages are computed against the state before the level (batched pull). -/
def prop_net (P : SPParams) (g : HGraph) (nfv : ℕ → List ℚ) (gt : Bool)
    (frontier : List ℕ) (s : SPState) : SPState :=
  { s with new_nf := fun n =>
      if n ∈ frontier then
        sumVecs P.out_nf ((g.net_out.filter (fun e => e.dst == n)).map
          (edge_msg_net P (lastReader g gt s) nfv))
      else s.new_nf n }

/-- Length of the LUT axis metadata block at the head of a cell_out edge
feature row (line 133). -/
def axisLen (P : SPParams) : ℕ := P.in_cell_num_luts * (1 + 2 * P.in_cell_lut_sz)

/-- The per-duplicate LUT query row: global row ra of q.reshape(-1, 2) where
ra = t * (num_luts * lut_dup) + l * lut_dup + d for edge t, table l,
duplicate d.  The underlying per-edge query is MLP_lut_query applied to
cat [last prediction, src nf, dst nf] (lines 124-130). -/
def lutQ (P : SPParams) (read nfv : ℕ → List ℚ) (es : List HEdge) (ra : ℕ) : List ℚ :=
  P.MLP_lut_query
    (read (es.getD (ra / (P.in_cell_num_luts * P.lut_dup)) ⟨0, 0, []⟩).src
      ++ nfv (es.getD (ra / (P.in_cell_num_luts * P.lut_dup)) ⟨0, 0, []⟩).src
      ++ nfv (es.getD (ra / (P.in_cell_num_luts * P.lut_dup)) ⟨0, 0, []⟩).dst)

/-- x-channel of query row ra (column 0 of q.reshape(-1, 2)). -/
def qx (P : SPParams) (read nfv : ℕ → List ℚ) (es : List HEdge) (ra : ℕ) : ℚ :=
  (lutQ P read nfv es ra).getD (2 * (ra % (P.in_cell_num_luts * P.lut_dup))) 0

/-- y-channel of query row ra (column 1 of q.reshape(-1, 2)). -/
def qy (P : SPParams) (read nfv : ℕ → List ℚ) (es : List HEdge) (ra : ℕ) : ℚ :=
  (lutQ P read nfv es ra).getD (2 * (ra % (P.in_cell_num_luts * P.lut_dup)) + 1) 0

/-- Axis metadata row aligned with query row ra: row l of the per-edge axis
block, replicated lut_dup times (lines 133-136). -/
def axisRow (P : SPParams) (es : List HEdge) (ra : ℕ) : List ℚ :=
  (List.range (1 + 2 * P.in_cell_lut_sz)).map (fun k =>
    (es.getD (ra / (P.in_cell_num_luts * P.lut_dup)) ⟨0, 0, []⟩).ef.getD
      (((ra % (P.in_cell_num_luts * P.lut_dup)) / P.lut_dup) * (1 + 2 * P.in_cell_lut_sz) + k) 0)

/-- LUT Mask MLP output for row ra: MLP_lut_attention on cat [q, axis]
(line 138), width 2 * in_cell_lut_sz. -/
def attnRow (P : SPParams) (read nfv : ℕ → List ℚ) (es : List HEdge) (ra : ℕ) : List ℚ :=
  P.MLP_lut_attention ([qx P read nfv es ra, qy P read nfv es ra] ++ axisRow P es ra)

/-- x-axis attention row ax of a.reshape(-1, 2, sz) (lines 141-142). -/
def axVec (P : SPParams) (read nfv : ℕ → List ℚ) (es : List HEdge) (ra : ℕ) : List ℚ :=
  (List.range P.in_cell_lut_sz).map (fun i => (attnRow P read nfv es ra).getD i 0)

/-- y-axis attention row ay of a.reshape(-1, 2, sz) (lines 141-142). -/
def ayVec (P : SPParams) (read nfv : ℕ → List ℚ) (es : List HEdge) (ra : ℕ) : List ℚ :=
  (List.range P.in_cell_lut_sz).map (fun j =>
    (attnRow P read nfv es ra).getD (P.in_cell_lut_sz + j) 0)

/-- Entry k of the flattened outer-product attention matrix
ax.reshape(sz,1) @ ay.reshape(1,sz) of row ra (line 143): row-major flatten,
so entry k pairs ax[k / sz] with ay[k % sz]. -/
def aEntry (P : SPParams) (read nfv : ℕ → List ℚ) (es : List HEdge) (ra k : ℕ) : ℚ :=
  (axVec P read nfv es ra).getD (k / P.in_cell_lut_sz) 0 *
    (ayVec P read nfv es ra).getD (k % P.in_cell_lut_sz) 0

/-- Entry k of table row rb of tables.reshape(-1, 1, 1, sz^2) (lines
146-147): row rb = (edge rb / num_luts, table rb % num_luts), read from the
value block of the edge feature row after the axis block. -/
def tableEntry (P : SPParams) (es : List HEdge) (rb k : ℕ) : ℚ :=
  (es.getD (rb / P.in_cell_num_luts) ⟨0, 0, []⟩).ef.getD
    (axisLen P + (rb % P.in_cell_num_luts) * P.in_cell_lut_sz ^ 2 + k) 0

/-- Index into a broadcast batch dimension of size m at batch position b
(torch broadcasting: a dimension of size 1 is repeated). -/
def bcIdx (m b : ℕ) : ℕ := if m = 1 then 0 else b

/-- Batch size inferred by a.reshape(-1, 4, sz^2, 1) at line 148 (the
constant 4 is hardcoded in the source). -/
def lutBatchB (P : SPParams) (E : ℕ) : ℕ :=
  E * P.in_cell_num_luts * P.lut_dup * P.in_cell_lut_sz ^ 2 / (4 * P.in_cell_lut_sz ^ 2)

/-- Shape admissibility of lines 148 and 151: the reshape of the attention
tensor to (-1, 4, sz^2, 1), the broadcast of the batched matmul against
tables.reshape(-1, 1, 1, sz^2), and the final reshape of the result to
(len(es), num_luts * lut_dup).  A False value is a torch runtime error. -/
def cellShapeOk (P : SPParams) (E : ℕ) : Bool :=
  (4 * P.in_cell_lut_sz ^ 2 != 0
    && E * P.in_cell_num_luts * P.lut_dup * P.in_cell_lut_sz ^ 2 % (4 * P.in_cell_lut_sz ^ 2) == 0)
  && (E * P.in_cell_num_luts == lutBatchB P E
      || E * P.in_cell_num_luts == 1 || lutBatchB P E == 1)
  && (max (E * P.in_cell_num_luts) (lutBatchB P E) * 4 == E * (P.in_cell_num_luts * P.lut_dup))

/-- Element (b, c) of the batched matmul
tables.reshape(-1,1,1,sz^2) @ a.reshape(-1,4,sz^2,1) (line 148), with torch
broadcasting of the two batch dimensions. -/
def lutOut (P : SPParams) (read nfv : ℕ → List ℚ) (es : List HEdge) (b c : ℕ) : ℚ :=
  Finset.sum (Finset.range (P.in_cell_lut_sz ^ 2)) (fun k =>
    tableEntry P es (bcIdx (es.length * P.in_cell_num_luts) b) k *
      aEntry P read nfv es (bcIdx (lutBatchB P es.length) b * 4 + c) k)

/-- Scalar LUT lookup result (t, j) of r.reshape(len(es), num_luts * lut_dup)
(line 151): flat position t * (num_luts * lut_dup) + j of the matmul output. -/
def lutResult (P : SPParams) (read nfv : ℕ → List ℚ) (es : List HEdge) (t j : ℕ) : ℚ :=
  lutOut P read nfv es ((t * (P.in_cell_num_luts * P.lut_dup) + j) / 4)
    ((t * (P.in_cell_num_luts * P.lut_dup) + j) % 4)

/-- SignalProp.edge_msg_cell before the split, for the i-th edge of the
batch es: cat [last prediction, src nf, dst nf, LUT results] through
MLP_cellarc_msg (lines 150-155). -/
def cellMsg (P : SPParams) (read nfv : ℕ → List ℚ) (es : List HEdge) (i : ℕ) : List ℚ :=
  P.MLP_cellarc_msg
    (read (es.getD i ⟨0, 0, []⟩).src ++ nfv (es.getD i ⟨0, 0, []⟩).src
      ++ nfv (es.getD i ⟨0, 0, []⟩).dst
      ++ (List.range (P.in_cell_num_luts * P.lut_dup)).map (lutResult P read nfv es i))

/-- The sigmoid-activated gate k of edge_msg_cell (column 0 of the split). -/
def cellGate (P : SPParams) (read nfv : ℕ → List ℚ) (es : List HEdge) (i : ℕ) : ℚ :=
  P.sigmoid ((cellMsg P read nfv es i).getD 0 0)

/-- efc1 = f1 * k for the i-th edge of the batch. -/
def efc1 (P : SPParams) (read nfv : ℕ → List ℚ) (es : List HEdge) (i : ℕ) : List ℚ :=
  (((cellMsg P read nfv es i).drop 1).take P.h1).map (fun x => x * cellGate P read nfv es i)

/-- efc2 = f2 * k for the i-th edge of the batch. -/
def efc2 (P : SPParams) (read nfv : ℕ → List ℚ) (es : List HEdge) (i : ℕ) : List ℚ :=
  (((cellMsg P read nfv es i).drop (1 + P.h1)).take P.h2).map
    (fun x => x * cellGate P read nfv es i)

/-- efce = cef (ungated cell-delay prediction) for the i-th edge of the batch. -/
def efceMsg (P : SPParams) (read nfv : ℕ → List ℚ) (es : List HEdge) (i : ℕ) : List ℚ :=
  ((cellMsg P read nfv es i).drop (1 + P.h1 + P.h2)).take P.out_cef

/-- nfc1: send_and_recv over es with fn.sum — the sum of the efc1 messages
over the batch edges whose dst is n (zeros when there are none). -/
def nfc1 (P : SPParams) (read nfv : ℕ → List ℚ) (es : List HEdge) (n : ℕ) : List ℚ :=
  sumVecs P.h1
    (((List.range es.length).filter (fun i => (es.getD i ⟨0, 0, []⟩).dst == n)).map
      (efc1 P read nfv es))

/-- nfc2: send_and_recv over es with fn.max — the max of the efc2 messages
over the batch edges whose dst is n (zeros when there are none). -/
def nfc2 (P : SPParams) (read nfv : ℕ → List ℚ) (es : List HEdge) (n : ℕ) : List ℚ :=
  maxVecs P.h2
    (((List.range es.length).filter (fun i => (es.getD i ⟨0, 0, []⟩).dst == n)).map
      (efc2 P read nfv es))

/-- g.in_edges(frontier, etype='cell_out'): the positions of the cell_out
edges whose dst lies in the frontier, in storage order. -/
def cellEdges (g : HGraph) (frontier : List ℕ) : List ℕ :=
  (List.range g.cell_out.length).filter (fun t => frontier.contains (cellEdge g t).dst)

/-- prop_cell (lines 190-197): apply edge_msg_cell to the incoming cell_out
edges of the frontier, reduce efc1 by sum and efc2 by max at their dst
nodes, and overwrite new_nf at every frontier node with node_reduce_o
(cat [nf, nfc1, nfc2] through MLP_cellreduce); efce is written for exactly
the batch edges.  none models the torch shape error of lines 148/151. -/
def prop_cell (P : SPParams) (g : HGraph) (nfv : ℕ → List ℚ) (gt : Bool)
    (frontier : List ℕ) (s : SPState) : Option SPState :=
  if cellShapeOk P (cellEdges g frontier).length then
    some
      { new_nf := fun n =>
          if n ∈ frontier then
            P.MLP_cellreduce
              (nfv n
                ++ nfc1 P (lastReader g gt s) nfv ((cellEdges g frontier).map (cellEdge g)) n
                ++ nfc2 P (lastReader g gt s) nfv ((cellEdges g frontier).map (cellEdge g)) n)
          else s.new_nf n
      , efce := fun t =>
          if t ∈ cellEdges g frontier then
            efceMsg P (lastReader g gt s) nfv ((cellEdges g frontier).map (cellEdge g))
              ((cellEdges g frontier).indexOf t)
          else s.efce t }
  else none

/-- Initial transient state (line 181): new_nf is replaced wholesale by a
fresh zero tensor — the pre-call contents pre of the persistent new_nf
column are discarded unread; efce starts as the zero column DGL creates for
edges a partial apply_edges does not touch. -/
def initState (P : SPParams) (_pre : ℕ → List ℚ) : SPState :=
  { new_nf := fun _ => zeros P.out_nf, efce := fun _ => zeros P.out_cef }

/-- apply_nodes(node_skip_level_o, ts.pi_nodes) (line 183): primary inputs
copy their ground truth n_atslew into new_nf. -/
def applySkip (g : HGraph) (ts : TS) (s : SPState) : SPState :=
  { s with new_nf := fun n => if n ∈ ts.pi_nodes then g.n_atslew n else s.new_nf n }

/-- One level of the autoregressive loop (lines 206-212): odd-indexed levels
run the net stage, even-indexed levels run the cell stage. -/
def stageStep (P : SPParams) (g : HGraph) (nfv : ℕ → List ℚ) (ts : TS) (i : ℕ)
    (s : SPState) : Option SPState :=
  if i % 2 = 1 then some (prop_net P g nfv false (ts.topo.getD i []) s)
  else prop_cell P g nfv false (ts.topo.getD i []) s

/-- Sequential execution of the listed levels, each depending on the full
completion of the previous one. -/
def runTopo (P : SPParams) (g : HGraph) (nfv : ℕ → List ℚ) (ts : TS) :
    List ℕ → SPState → Option SPState
  | [], s => some s
  | i :: rest, s => (stageStep P g nfv ts i s).bind (fun s1 => runTopo P g nfv ts rest s1)

/-- SignalProp.forward inside g.local_scope(): the assert of line 175, the
zero init and primary-input skip, then either the two teacher-forced stages
(lines 199-202) or the level loop (lines 204-212); returns the transient
state holding new_nf and efce. -/
def forwardCore (P : SPParams) (g : HGraph) (ts : TS) (nfv pre : ℕ → List ℚ)
    (gt : Bool) : Option SPState :=
  if ts.topo.length % 2 = 0 then
    if gt then
      prop_cell P g nfv true ts.output_nodes_nonpi
        (prop_net P g nfv true ts.input_nodes (applySkip g ts (initState P pre)))
    else
      runTopo P g nfv ts (List.range' 1 (ts.topo.length - 1))
        (applySkip g ts (initState P pre))
  else none

/-- SignalProp.forward: pre is the pre-call contents of the persistent new_nf
column (overwritten unread at line 181).  Returns the predictions
(new_nf column, efce column over cell_out edges) — none on the assert of
line 175 or a torch shape error — together with the graph's persistent
store, which local_scope leaves unchanged. -/
def forward (P : SPParams) (g : HGraph) (ts : TS) (nfv pre : ℕ → List ℚ) (gt : Bool) :
    Option ((ℕ → List ℚ) × (ℕ → List ℚ)) × HGraph :=
  ((forwardCore P g ts nfv pre gt).map (fun s => (s.new_nf, s.efce)), g)

end SignalProp

/-- A homogeneous graph for the AllConv / DeepGCNII baseline: one edge
relation, node features in ndata['nf']. -/
structure HomGraph where
  numNodes : ℕ
  edges : List HEdge
  nf : ℕ → List ℚ

/-- Parameters (dimensions and learned transforms) of one AllConv layer. -/
structure ACParams where
  in_nf : ℕ
  out_nf : ℕ
  in_ef : ℕ
  h1 : ℕ
  h2 : ℕ
  MLP_msg : List ℚ → List ℚ
  MLP_reduce : List ℚ → List ℚ
  sigmoid : ℚ → ℚ

namespace AllConv

/-- AllConv.edge_udf before the split: cat [src nf, dst nf, ef] through
MLP_msg. -/
def edge_udf_raw (A : ACParams) (nfv : ℕ → List ℚ) (e : HEdge) : List ℚ :=
  A.MLP_msg (nfv e.src ++ nfv e.dst ++ e.ef)

/-- The sigmoid-activated gate k of edge_udf. -/
def gate (A : ACParams) (nfv : ℕ → List ℚ) (e : HEdge) : ℚ :=
  A.sigmoid ((edge_udf_raw A nfv e).getD 0 0)

/-- ef1 = f1 * k. -/
def ef1 (A : ACParams) (nfv : ℕ → List ℚ) (e : HEdge) : List ℚ :=
  (((edge_udf_raw A nfv e).drop 1).take A.h1).map (fun x => x * gate A nfv e)

/-- ef2 = f2 * k. -/
def ef2 (A : ACParams) (nfv : ℕ → List ℚ) (e : HEdge) : List ℚ :=
  (((edge_udf_raw A nfv e).drop (1 + A.h1)).take A.h2).map (fun x => x * gate A nfv e)

/-- AllConv.forward: per node, cat [nf, sum of ef1 over in-edges, max of ef2
over in-edges] through MLP_reduce. -/
def forward (A : ACParams) (g : HomGraph) (nfv : ℕ → List ℚ) : ℕ → List ℚ :=
  fun n =>
    A.MLP_reduce
      (nfv n ++ sumVecs A.h1 ((g.edges.filter (fun e => e.dst == n)).map (ef1 A nfv))
        ++ maxVecs A.h2 ((g.edges.filter (fun e => e.dst == n)).map (ef2 A nfv)))

end AllConv

/-- The DeepGCNII module after construction: layer0, the list of intermediate
layers built by the constructor, and layern. -/
structure DGParams where
  n_layers : ℕ
  out_nf : ℕ
  layer0 : ACParams
  layers : List ACParams
  layern : ACParams

/-- The DeepGCNII constructor with n_layers=N: builds exactly N - 2
intermediate AllConv layers (self.layers = [AllConv(26, 16) for i in
range(n_layers - 2)]); mk i supplies the independently initialised weights
of the i-th intermediate layer. -/
def mkDeepGCNII (n_layers out_nf : ℕ) (l0 : ACParams) (mk : ℕ → ACParams)
    (ln : ACParams) : DGParams :=
  { n_layers := n_layers, out_nf := out_nf, layer0 := l0
  , layers := (List.range (n_layers - 2)).map mk, layern := ln }

namespace DeepGCNII

/-- One intermediate layer (line 282): the layer is applied to
cat [running feature x, original node feature nf] and a residual skip of x
is added. -/
def step (g : HomGraph) (x : ℕ → List ℚ) (A : ACParams) : ℕ → List ℚ :=
  fun n => addVec (AllConv.forward A g (fun m => x m ++ g.nf m) n) (x n)

/-- DeepGCNII.forward: layer0 on the raw node features, then the intermediate
residual layers in order, then layern. -/
def forward (M : DGParams) (g : HomGraph) : ℕ → List ℚ :=
  AllConv.forward M.layern g
    (M.layers.foldl (step g) (AllConv.forward M.layer0 g g.nf))

end DeepGCNII

/-! Concrete instances used to evaluate the definitions on closed inputs. -/

/-- A simple concrete transform instantiating learned MLP parameters in the
concrete evaluations below. -/
def mlpSum : List ℚ → List ℚ := fun v => [v.foldl (fun a b => a + b) 0]

/-- Concrete SignalProp parameters in the shipped configuration lut_dup = 4,
with a single 1x1 lookup table. -/
def PW : SPParams :=
  { in_nf := 1, in_cell_num_luts := 1, in_cell_lut_sz := 1, out_nf := 1, out_cef := 1
  , h1 := 1, h2 := 1, lut_dup := 4
  , MLP_netprop := mlpSum
  , MLP_lut_query := fun _ => [1, 0, 1, 0, 1, 0, 1, 0]
  , MLP_lut_attention := fun _ => [1, 1]
  , MLP_cellarc_msg := fun _ => [1, 1, 1, 1]
  , MLP_cellreduce := mlpSum
  , sigmoid := fun x => x }

/-- PW with lut_dup = 1: a configuration on which the hardcoded reshape group
of line 148 breaks the batched lookup. -/
def PB : SPParams := { PW with lut_dup := 1, MLP_lut_query := fun _ => [1, 0] }

/-- A concrete four-pin graph: net arc 0 -> 1, cell arc 1 -> 2, net arc
2 -> 3; the cell arc carries one 1x1 LUT (axis block [0, 0, 0], value 5). -/
def gW : HGraph :=
  { numNodes := 4
  , net_out := [⟨0, 1, []⟩, ⟨2, 3, []⟩]
  , net_in := []
  , cell_out := [⟨1, 2, [0, 0, 0, 5]⟩]
  , n_atslew := fun _ => [1] }

/-- The matching topological schedule: four singleton levels, alternating
net (odd index) and cell (even index) stages after the primary inputs. -/
def tsW : TS :=
  { topo := [[0], [1], [2], [3]]
  , pi_nodes := [0]
  , input_nodes := [1]
  , output_nodes := [0, 2]
  , output_nodes_nonpi := [2] }

/-- A schedule with an odd number of levels. -/
def tsOdd : TS :=
  { topo := [[0]], pi_nodes := [0], input_nodes := [], output_nodes := []
  , output_nodes_nonpi := [] }

/-- Concrete input node features. -/
def nfW : ℕ → List ℚ := fun _ => [2]

/-- Concrete garbage pre-call contents of the persistent new_nf column. -/
def preW : ℕ → List ℚ := fun _ => [7]

/-- Concrete NetConv parameters. -/
def QW : NCParams :=
  { in_nf := 1, in_ef := 1, out_nf := 1, h1 := 1, h2 := 1
  , MLP_msg_i2o := fun _ => [1, 1, 1], MLP_reduce_o := mlpSum, MLP_msg_o2i := mlpSum
  , sigmoid := fun x => x }

/-- Concrete AllConv parameters. -/
def AW : ACParams :=
  { in_nf := 1, out_nf := 1, in_ef := 1, h1 := 1, h2 := 1
  , MLP_msg := fun _ => [1, 1, 1], MLP_reduce := mlpSum, sigmoid := fun x => x }

/-- A concrete homogeneous graph for the DeepGCNII baseline. -/
def hgW : HomGraph := { numNodes := 2, edges := [⟨0, 1, [3]⟩], nf := fun _ => [1] }

/-- The concrete batch of cell_out edges used in the LUT evaluation. -/
def esW : List HEdge := [⟨1, 2, [0, 0, 0, 5]⟩]

/-! Helper lemmas. -/

/-- Reading a one-hot row out of range or off the hot index gives 0. -/
theorem getD_oneHot (n i m : ℕ) :
    (oneHot n i).getD m 0 = if m < n ∧ m = i then 1 else 0 := by
  unfold oneHot
  rw [List.getD_eq_getElem?_getD, List.getElem?_map]
  rcases Nat.lt_or_ge m n with h | h
  · rw [List.getElem?_range h]
    by_cases hm : m = i
    · subst hm
      simp [h]
    · simp [hm, h]
  · rw [List.getElem?_eq_none (by simpa using h)]
    have : ¬ (m < n ∧ m = i) := by omega
    simp [this]

/-- Dotting a flattened sz x sz grid against the outer product of two one-hot
rows picks out the single grid entry (i, j). -/
theorem sum_grid_oneHot (sz i j : ℕ) (hi : i < sz) (hj : j < sz) (tb : ℕ → ℚ) :
    Finset.sum (Finset.range (sz ^ 2))
      (fun k => tb k * ((oneHot sz i).getD (k / sz) 0 * (oneHot sz j).getD (k % sz) 0))
      = tb (i * sz + j) := by
  have hsz : 0 < sz := Nat.lt_of_le_of_lt (Nat.zero_le i) hi
  rw [Finset.sum_eq_single (i * sz + j)]
  · have h1 : (i * sz + j) / sz = i := by
      rw [mul_comm, Nat.mul_add_div hsz, Nat.div_eq_of_lt hj, Nat.add_zero]
    have h2 : (i * sz + j) % sz = j := by
      rw [mul_comm, Nat.mul_add_mod, Nat.mod_eq_of_lt hj]
    rw [h1, h2, getD_oneHot, getD_oneHot, if_pos ⟨hi, rfl⟩, if_pos ⟨hj, rfl⟩]
    ring
  · intro b _ hne
    by_cases hbi : b / sz = i
    · by_cases hbj : b % sz = j
      · exfalso
        apply hne
        calc b = sz * (b / sz) + b % sz := (Nat.div_add_mod b sz).symm
          _ = sz * i + j := by rw [hbi, hbj]
          _ = i * sz + j := by ring
      · rw [getD_oneHot sz j (b % sz), if_neg (by tauto)]
        ring
    · rw [getD_oneHot sz i (b / sz), if_neg (by tauto)]
      ring
  · intro hmem
    exfalso
    apply hmem
    rw [Finset.mem_range, pow_two]
    calc i * sz + j < i * sz + sz := by omega
      _ = (i + 1) * sz := by ring
      _ ≤ sz * sz := Nat.mul_le_mul_right sz hi

/-- prop_net writes new_nf only at frontier nodes. -/
theorem prop_net_frame {P : SPParams} {g : HGraph} {nfv : ℕ → List ℚ} {gt : Bool}
    {frontier : List ℕ} {s : SPState} {n : ℕ} (hn : n ∉ frontier) :
    (SignalProp.prop_net P g nfv gt frontier s).new_nf n = s.new_nf n := by
  simp [SignalProp.prop_net, hn]

/-- prop_cell writes new_nf only at frontier nodes. -/
theorem prop_cell_frame {P : SPParams} {g : HGraph} {nfv : ℕ → List ℚ} {gt : Bool}
    {frontier : List ℕ} {s s1 : SPState} {n : ℕ}
    (h : SignalProp.prop_cell P g nfv gt frontier s = some s1) (hn : n ∉ frontier) :
    s1.new_nf n = s.new_nf n := by
  unfold SignalProp.prop_cell at h
  by_cases hc : SignalProp.cellShapeOk P (SignalProp.cellEdges g frontier).length = true
  · rw [if_pos hc] at h
    injection h with h
    rw [← h]
    simp [hn]
  · rw [if_neg hc] at h
    cases h

/-- One autoregressive level writes new_nf only at the level's nodes. -/
theorem stageStep_frame {P : SPParams} {g : HGraph} {nfv : ℕ → List ℚ} {ts : TS}
    {i : ℕ} {s s1 : SPState} {n : ℕ}
    (h : SignalProp.stageStep P g nfv ts i s = some s1)
    (hn : n ∉ ts.topo.getD i []) : s1.new_nf n = s.new_nf n := by
  unfold SignalProp.stageStep at h
  by_cases hp : i % 2 = 1
  · rw [if_pos hp] at h
    injection h with h
    rw [← h]
    exact prop_net_frame hn
  · rw [if_neg hp] at h
    exact prop_cell_frame h hn

/-- A run of levels leaves new_nf unchanged at nodes lying in none of them. -/
theorem runTopo_frame {P : SPParams} {g : HGraph} {nfv : ℕ → List ℚ} {ts : TS} {n : ℕ} :
    ∀ (ls : List ℕ) (s s1 : SPState),
      SignalProp.runTopo P g nfv ts ls s = some s1 →
      (∀ k ∈ ls, n ∉ ts.topo.getD k []) → s1.new_nf n = s.new_nf n := by
  intro ls
  induction ls with
  | nil =>
    intro s s1 h _
    unfold SignalProp.runTopo at h
    injection h with h
    rw [← h]
  | cons i rest ih =>
    intro s s1 h hk
    unfold SignalProp.runTopo at h
    cases hs : SignalProp.stageStep P g nfv ts i s with
    | none => rw [hs] at h; cases h
    | some sm =>
      rw [hs, Option.some_bind] at h
      have h1 := stageStep_frame hs (hk i (by simp))
      have h2 := ih sm s1 h (fun k hk2 => hk k (by simp [hk2]))
      rw [h2, h1]

/-- Sequencing is composition: running the concatenation of two level lists
runs the first to completion and feeds its state to the second. -/
theorem runTopo_append (P : SPParams) (g : HGraph) (nfv : ℕ → List ℚ) (ts : TS)
    (as bs : List ℕ) (s : SPState) :
    SignalProp.runTopo P g nfv ts (as ++ bs) s
      = (SignalProp.runTopo P g nfv ts as s).bind
          (fun s1 => SignalProp.runTopo P g nfv ts bs s1) := by
  induction as generalizing s with
  | nil => simp [SignalProp.runTopo]
  | cons i rest ih =>
    rw [List.cons_append]
    show (SignalProp.stageStep P g nfv ts i s).bind
        (fun s1 => SignalProp.runTopo P g nfv ts (rest ++ bs) s1)
      = ((SignalProp.stageStep P g nfv ts i s).bind
          (fun s1 => SignalProp.runTopo P g nfv ts rest s1)).bind
          (fun s1 => SignalProp.runTopo P g nfv ts bs s1)
    cases SignalProp.stageStep P g nfv ts i s with
    | none => rfl
    | some sm => rw [Option.some_bind, Option.some_bind, ih]

/-! Claim theorems. -/

/-- C2: SignalProp.forward with groundtruth=True never reads the pre-call
contents of the new_nf column — the outputs are identical for any two
pre-call contents — and in this mode exactly two stages run: one net stage
over input_nodes followed by one cell stage over output_nodes_nonpi, whose
edge messages read the n_atslew ground-truth column. -/
theorem c2_teacher_forcing_no_new_nf (P : SPParams) (g : HGraph) (ts : TS)
    (nfv pre1 pre2 : ℕ → List ℚ) (hEven : ts.topo.length % 2 = 0) :
    SignalProp.forward P g ts nfv pre1 true = SignalProp.forward P g ts nfv pre2 true
      ∧ SignalProp.forwardCore P g ts nfv pre1 true
          = SignalProp.prop_cell P g nfv true ts.output_nodes_nonpi
              (SignalProp.prop_net P g nfv true ts.input_nodes
                (SignalProp.applySkip g ts (SignalProp.initState P pre1)))
      ∧ (∀ s : SPState, SignalProp.lastReader g true s = g.n_atslew) := by
  refine ⟨rfl, ?_, fun s => rfl⟩
  simp [SignalProp.forwardCore, hEven]

/-- C2 witness: the teacher-forcing invariant evaluated on the concrete
four-pin graph with two different corruptions of the new_nf column. -/
theorem c2_teacher_forcing_no_new_nf_witness :
    tsW.topo.length % 2 = 0
      ∧ SignalProp.forward PW gW tsW nfW preW true = SignalProp.forward PW gW tsW nfW nfW true :=
  ⟨by decide, (c2_teacher_forcing_no_new_nf PW gW tsW nfW preW nfW (by decide)).1⟩

/-- C5: with an odd-length topo schedule, SignalProp.forward in
autoregressive mode fails the assert of line 175 before any propagation and
produces no outputs. -/
theorem c5_odd_topo_is_config_error (P : SPParams) (g : HGraph) (ts : TS)
    (nfv pre : ℕ → List ℚ) (hOdd : ts.topo.length % 2 = 1) :
    (SignalProp.forward P g ts nfv pre false).1 = none := by
  have h : ¬ ts.topo.length % 2 = 0 := by omega
  simp [SignalProp.forward, SignalProp.forwardCore, h]

/-- C5 witness: a concrete one-level schedule. -/
theorem c5_odd_topo_is_config_error_witness :
    tsOdd.topo.length % 2 = 1 ∧ (SignalProp.forward PW gW tsOdd nfW preW false).1 = none :=
  ⟨by decide, c5_odd_topo_is_config_error PW gW tsOdd nfW preW (by decide)⟩

/-- C7: a drive node in ts.output_nodes with no incoming net_in edge gets the
zero vector (the additive identity) as its sum-aggregated nfo1 input and the
deterministic zero default as its max-aggregated nfo2 input to the reduce
MLP. -/
theorem c7_isolated_drive_identity (Q : NCParams) (g : HGraph) (ts : TS)
    (nfv : ℕ → List ℚ) (n : ℕ)
    (hiso : g.net_in.filter (fun e => e.dst == n) = [])
    (hout : n ∈ ts.output_nodes) :
    NetConv.nfo1 Q g nfv n = zeros Q.h1
      ∧ NetConv.nfo2 Q g nfv n = zeros Q.h2
      ∧ (NetConv.forward Q g ts nfv).1 n
          = Q.MLP_reduce_o (nfv n ++ zeros Q.h1 ++ zeros Q.h2) := by
  have h1 : NetConv.nfo1 Q g nfv n = zeros Q.h1 := by
    unfold NetConv.nfo1
    rw [hiso]
    rfl
  have h2 : NetConv.nfo2 Q g nfv n = zeros Q.h2 := by
    unfold NetConv.nfo2
    rw [hiso]
    rfl
  refine ⟨h1, h2, ?_⟩
  show (if n ∈ ts.output_nodes then NetConv.node_reduce_o Q g nfv n else NetConv.new_nf_i Q g nfv n)
      = Q.MLP_reduce_o (nfv n ++ zeros Q.h1 ++ zeros Q.h2)
  rw [if_pos hout]
  unfold NetConv.node_reduce_o
  rw [h1, h2]

/-- C7 witness: node 2 of the concrete graph is a drive node with no
incoming net_in edge. -/
theorem c7_isolated_drive_identity_witness :
    gW.net_in.filter (fun e => e.dst == 2) = [] ∧ 2 ∈ tsW.output_nodes
      ∧ NetConv.nfo1 QW gW nfW 2 = zeros QW.h1
      ∧ (NetConv.forward QW gW tsW nfW).1 2
          = QW.MLP_reduce_o (nfW 2 ++ zeros QW.h1 ++ zeros QW.h2) :=
  ⟨by decide, by decide
  , (c7_isolated_drive_identity QW gW tsW nfW 2 (by decide) (by decide)).1
  , (c7_isolated_drive_identity QW gW tsW nfW 2 (by decide) (by decide)).2.2⟩

/-- C8: g.local_scope() confines every feature written during a forward pass
to the call: NetConv.forward and SignalProp.forward return the persistent
store unchanged, so re-running a forward on the store a previous call
returned yields the same results — no state is carried across calls. -/
theorem c8_local_scope_transient (Q : NCParams) (P : SPParams) (g : HGraph)
    (ts1 ts2 : TS) (nf1 nf2 pre : ℕ → List ℚ) (gt : Bool) :
    (NetConv.forward Q g ts1 nf1).2 = g
      ∧ (SignalProp.forward P g ts2 nf2 pre gt).2 = g
      ∧ NetConv.forward Q (NetConv.forward Q g ts1 nf1).2 ts1 nf1
          = NetConv.forward Q g ts1 nf1
      ∧ SignalProp.forward P (SignalProp.forward P g ts2 nf2 pre gt).2 ts2 nf2 pre gt
          = SignalProp.forward P g ts2 nf2 pre gt :=
  ⟨rfl, rfl, rfl, rfl⟩

/-- C9: DeepGCNII built with n_layers = N holds exactly N - 2 intermediate
layers; forward applies layer0, then the intermediate residual steps (each
taking cat [running feature, original node feature] and adding the running
feature back), then layern; with N = 2 the forward reduces to layern applied
directly to layer0's output. -/
theorem c9_deepgcnii_structure (N w : ℕ) (l0 ln : ACParams) (mk : ℕ → ACParams)
    (g : HomGraph) :
    (mkDeepGCNII N w l0 mk ln).layers.length = N - 2
      ∧ DeepGCNII.forward (mkDeepGCNII N w l0 mk ln) g
          = AllConv.forward ln g
              (((List.range (N - 2)).map mk).foldl (DeepGCNII.step g)
                (AllConv.forward l0 g g.nf))
      ∧ (N = 2 → DeepGCNII.forward (mkDeepGCNII N w l0 mk ln) g
          = AllConv.forward ln g (AllConv.forward l0 g g.nf)) := by
  refine ⟨by simp [mkDeepGCNII], rfl, ?_⟩
  intro hN
  subst hN
  rfl

/-- C9 witness: with n_layers = 2 on the concrete homogeneous graph, forward
is layern after layer0 with no intermediate layer. -/
theorem c9_deepgcnii_structure_witness :
    (mkDeepGCNII 2 1 AW (fun _ => AW) AW).layers.length = 2 - 2
      ∧ DeepGCNII.forward (mkDeepGCNII 2 1 AW (fun _ => AW) AW) hgW
          = AllConv.forward AW hgW (AllConv.forward AW hgW hgW.nf) :=
  ⟨(c9_deepgcnii_structure 2 1 AW AW (fun _ => AW) hgW).1
  , (c9_deepgcnii_structure 2 1 AW AW (fun _ => AW) hgW).2.2 rfl⟩

/-- C6: in either mode, the returned prediction of a primary-input node is
its n_atslew ground truth, copied by node_skip_level_o — provided the pi
node lies in no processed frontier (in teacher-forced mode it is in neither
input_nodes nor output_nodes_nonpi; in autoregressive mode it lies in no
topo level of index 1 or higher), so no net or cell stage recomputes it. -/
theorem c6_pi_prediction_is_ground_truth (P : SPParams) (g : HGraph) (ts : TS)
    (nfv pre : ℕ → List ℚ) (gt : Bool) (n : ℕ)
    (hpi : n ∈ ts.pi_nodes)
    (hgt : gt = true → n ∉ ts.input_nodes ∧ n ∉ ts.output_nodes_nonpi)
    (har : gt = false → ∀ i, i < ts.topo.length → 1 ≤ i → n ∉ ts.topo.getD i []) :
    ∀ out, (SignalProp.forward P g ts nfv pre gt).1 = some out → out.1 n = g.n_atslew n := by
  intro out h
  rw [SignalProp.forward] at h
  simp only [Option.map_eq_some'] at h
  obtain ⟨s, hs, hout⟩ := h
  have hskip : (SignalProp.applySkip g ts (SignalProp.initState P pre)).new_nf n
      = g.n_atslew n := by
    simp [SignalProp.applySkip, hpi]
  unfold SignalProp.forwardCore at hs
  by_cases he : ts.topo.length % 2 = 0
  · rw [if_pos he] at hs
    cases gt with
    | true =>
      rw [if_pos rfl] at hs
      have h1 := prop_cell_frame hs (hgt rfl).2
      have h2 := @prop_net_frame P g nfv true ts.input_nodes
        (SignalProp.applySkip g ts (SignalProp.initState P pre)) n ((hgt rfl).1)
      rw [← hout]
      show s.new_nf n = _
      rw [h1, h2, hskip]
    | false =>
      rw [if_neg (by simp)] at hs
      have h1 := runTopo_frame _ _ _ hs (fun k hk => by
        have hb := List.mem_range'_1.mp hk
        exact har rfl k (by omega) (by omega))
      rw [← hout]
      show s.new_nf n = _
      rw [h1, hskip]
  · rw [if_neg he] at hs
    cases hs

/-- C6 witness: primary input 0 of the concrete graph keeps its ground truth
in autoregressive mode. -/
theorem c6_pi_prediction_is_ground_truth_witness :
    0 ∈ tsW.pi_nodes
      ∧ (∀ out, (SignalProp.forward PW gW tsW nfW preW false).1 = some out →
          out.1 0 = gW.n_atslew 0) :=
  ⟨by decide
  , c6_pi_prediction_is_ground_truth PW gW tsW nfW preW false 0 (by decide)
      (by decide) (by decide)⟩

/-- C10: a node outside pi_nodes and outside every processed frontier (not in
input_nodes or output_nodes_nonpi in teacher-forced mode; in no topo level
of index 1 or higher in autoregressive mode) keeps the initial zero fill of
new_nf: its returned prediction is the all-zeros vector of width out_nf. -/
theorem c10_untouched_nodes_stay_zero (P : SPParams) (g : HGraph) (ts : TS)
    (nfv pre : ℕ → List ℚ) (gt : Bool) (n : ℕ)
    (hpi : n ∉ ts.pi_nodes)
    (hgt : gt = true → n ∉ ts.input_nodes ∧ n ∉ ts.output_nodes_nonpi)
    (har : gt = false → ∀ i, i < ts.topo.length → 1 ≤ i → n ∉ ts.topo.getD i []) :
    ∀ out, (SignalProp.forward P g ts nfv pre gt).1 = some out → out.1 n = zeros P.out_nf := by
  intro out h
  rw [SignalProp.forward] at h
  simp only [Option.map_eq_some'] at h
  obtain ⟨s, hs, hout⟩ := h
  have hskip : (SignalProp.applySkip g ts (SignalProp.initState P pre)).new_nf n
      = zeros P.out_nf := by
    simp [SignalProp.applySkip, SignalProp.initState, hpi]
  unfold SignalProp.forwardCore at hs
  by_cases he : ts.topo.length % 2 = 0
  · rw [if_pos he] at hs
    cases gt with
    | true =>
      rw [if_pos rfl] at hs
      have h1 := prop_cell_frame hs (hgt rfl).2
      have h2 := @prop_net_frame P g nfv true ts.input_nodes
        (SignalProp.applySkip g ts (SignalProp.initState P pre)) n ((hgt rfl).1)
      rw [← hout]
      show s.new_nf n = _
      rw [h1, h2, hskip]
    | false =>
      rw [if_neg (by simp)] at hs
      have h1 := runTopo_frame _ _ _ hs (fun k hk => by
        have hb := List.mem_range'_1.mp hk
        exact har rfl k (by omega) (by omega))
      rw [← hout]
      show s.new_nf n = _
      rw [h1, hskip]
  · rw [if_neg he] at hs
    cases hs

/-- C10 witness: node 5 of the concrete graph is in no frontier and its
returned prediction is the zero vector of width out_nf. -/
theorem c10_untouched_nodes_stay_zero_witness :
    (5 ∉ tsW.pi_nodes)
      ∧ (∀ out, (SignalProp.forward PW gW tsW nfW preW false).1 = some out →
          out.1 5 = zeros PW.out_nf) :=
  ⟨by decide
  , c10_untouched_nodes_stay_zero PW gW tsW nfW preW false 5 (by decide)
      (by decide) (by decide)⟩

/-- C1: in autoregressive mode (with an even level count and pairwise
disjoint levels) the levels are processed one at a time in index order
starting at level 1 — level 0, the primary inputs, is skipped, having been
assigned ground truth directly — with every odd-indexed level handled by
prop_net and every even-indexed level by prop_cell; and the new_nf value any
level i reads for a node of an earlier level j is exactly the value standing
after level j, unchanged by the levels strictly between j and i (so each
level's messages read only predictions written by strictly earlier levels). -/
theorem c1_autoregressive_level_order (P : SPParams) (g : HGraph) (ts : TS)
    (nfv pre : ℕ → List ℚ)
    (hEven : ts.topo.length % 2 = 0)
    (hdisj : ∀ a ∈ Finset.range ts.topo.length, ∀ b ∈ Finset.range ts.topo.length,
      a ≠ b → ∀ n ∈ ts.topo.getD a [], n ∉ ts.topo.getD b []) :
    ((SignalProp.forward P g ts nfv pre false).1
        = (SignalProp.runTopo P g nfv ts (List.range' 1 (ts.topo.length - 1))
            (SignalProp.applySkip g ts (SignalProp.initState P pre))).map
            (fun s => (s.new_nf, s.efce)))
      ∧ (∀ i s, i % 2 = 1 → SignalProp.stageStep P g nfv ts i s
          = some (SignalProp.prop_net P g nfv false (ts.topo.getD i []) s))
      ∧ (∀ i s, i % 2 = 0 → SignalProp.stageStep P g nfv ts i s
          = SignalProp.prop_cell P g nfv false (ts.topo.getD i []) s)
      ∧ (∀ i, 1 ≤ i → i < ts.topo.length → ∀ j, j < i →
          ∀ src ∈ ts.topo.getD j [], ∀ sj si,
          SignalProp.runTopo P g nfv ts (List.range' 1 j)
              (SignalProp.applySkip g ts (SignalProp.initState P pre)) = some sj →
          SignalProp.runTopo P g nfv ts (List.range' 1 (i - 1))
              (SignalProp.applySkip g ts (SignalProp.initState P pre)) = some si →
          si.new_nf src = sj.new_nf src) := by
  refine ⟨?_, ?_, ?_, ?_⟩
  · simp [SignalProp.forward, SignalProp.forwardCore, hEven]
  · intro i s hp
    unfold SignalProp.stageStep
    rw [if_pos hp]
  · intro i s hp
    unfold SignalProp.stageStep
    rw [if_neg (by omega)]
  · intro i h1i hiL j hji src hsrc sj si hsj hsi
    have hsplit : List.range' 1 (i - 1)
        = List.range' 1 j ++ List.range' (1 + j) (i - 1 - j) := by
      have h := List.range'_append 1 j (i - 1 - j) 1
      have e1 : 1 + 1 * j = 1 + j := by ring
      have e2 : i - 1 - j + j = i - 1 := by omega
      rw [e1, e2] at h
      exact h.symm
    rw [hsplit, runTopo_append, hsj, Option.some_bind] at hsi
    exact runTopo_frame _ _ _ hsi (fun k hk => by
      have hb := List.mem_range'_1.mp hk
      exact hdisj j (Finset.mem_range.mpr (by omega)) k (Finset.mem_range.mpr (by omega))
        (by omega) src hsrc)

/-- C1 witness: the four-level concrete schedule, processed in order with
net stages at levels 1 and 3 and a cell stage at level 2. -/
theorem c1_autoregressive_level_order_witness :
    tsW.topo.length % 2 = 0
      ∧ ((SignalProp.forward PW gW tsW nfW preW false).1
          = (SignalProp.runTopo PW gW nfW tsW (List.range' 1 (tsW.topo.length - 1))
              (SignalProp.applySkip gW tsW (SignalProp.initState PW preW))).map
              (fun s => (s.new_nf, s.efce)))
      ∧ (∀ s, SignalProp.stageStep PW gW nfW tsW 1 s
          = some (SignalProp.prop_net PW gW nfW false (tsW.topo.getD 1 []) s))
      ∧ (∀ s, SignalProp.stageStep PW gW nfW tsW 2 s
          = SignalProp.prop_cell PW gW nfW false (tsW.topo.getD 2 []) s) :=
  ⟨by decide
  , (c1_autoregressive_level_order PW gW tsW nfW preW (by decide) (by decide)).1
  , fun s => (c1_autoregressive_level_order PW gW tsW nfW preW (by decide) (by decide)).2.1
      1 s (by decide)
  , fun s => (c1_autoregressive_level_order PW gW tsW nfW preW (by decide) (by decide)).2.2.1
      2 s (by decide)⟩

/-- C3: in the shape-consistent configuration lut_dup = 4 forced by the
hardcoded reshape group of line 148 (the shipped configuration), if for
edge t, lookup table l and duplicate query d the produced x-axis attention
row is one-hot at i and the y-axis attention row is one-hot at j, then the
scalar lookup result for that table and duplicate is exactly entry
i * in_cell_lut_sz + j of that table's flattened value grid, read from the
edge feature row. -/
theorem c3_onehot_hard_lookup (P : SPParams) (read nfv : ℕ → List ℚ) (es : List HEdge)
    (t l d i j : ℕ)
    (hld : P.lut_dup = 4)
    (ht : t < es.length) (hl : l < P.in_cell_num_luts) (hd : d < P.lut_dup)
    (hi : i < P.in_cell_lut_sz) (hj : j < P.in_cell_lut_sz)
    (hax : SignalProp.axVec P read nfv es
        (t * (P.in_cell_num_luts * P.lut_dup) + l * P.lut_dup + d)
      = oneHot P.in_cell_lut_sz i)
    (hay : SignalProp.ayVec P read nfv es
        (t * (P.in_cell_num_luts * P.lut_dup) + l * P.lut_dup + d)
      = oneHot P.in_cell_lut_sz j) :
    SignalProp.lutResult P read nfv es t (l * P.lut_dup + d)
      = (es.getD t ⟨0, 0, []⟩).ef.getD
          (SignalProp.axisLen P + l * P.in_cell_lut_sz ^ 2
            + (i * P.in_cell_lut_sz + j)) 0 := by
  rw [hld] at hax hay hd
  have hsz0 : 0 < P.in_cell_lut_sz := Nat.lt_of_le_of_lt (Nat.zero_le i) hi
  have hnl0 : 0 < P.in_cell_num_luts := Nat.lt_of_le_of_lt (Nat.zero_le l) hl
  unfold SignalProp.lutResult
  rw [hld]
  have hidx : t * (P.in_cell_num_luts * 4) + (l * 4 + d)
      = 4 * (t * P.in_cell_num_luts + l) + d := by ring
  have ha : (t * (P.in_cell_num_luts * 4) + (l * 4 + d)) / 4 = t * P.in_cell_num_luts + l := by
    rw [hidx, Nat.mul_add_div (by norm_num), Nat.div_eq_of_lt hd, Nat.add_zero]
  have hb : (t * (P.in_cell_num_luts * 4) + (l * 4 + d)) % 4 = d := by
    rw [hidx, Nat.mul_add_mod, Nat.mod_eq_of_lt hd]
  rw [ha, hb]
  unfold SignalProp.lutOut
  have hB : SignalProp.lutBatchB P es.length = es.length * P.in_cell_num_luts := by
    unfold SignalProp.lutBatchB
    rw [hld]
    have h4 : es.length * P.in_cell_num_luts * 4 * P.in_cell_lut_sz ^ 2
        = es.length * P.in_cell_num_luts * (4 * P.in_cell_lut_sz ^ 2) := by ring
    rw [h4, Nat.mul_div_cancel _ (Nat.mul_pos (by norm_num) (pow_pos hsz0 2))]
  have hEL1 : es.length * P.in_cell_num_luts = 1 → t * P.in_cell_num_luts + l = 0 := by
    intro h
    obtain ⟨hE, hN⟩ := mul_eq_one.mp h
    have ht0 : t = 0 := by omega
    have hl0 : l = 0 := by omega
    rw [ht0, hl0, hN]
    norm_num
  have hbc : SignalProp.bcIdx (es.length * P.in_cell_num_luts) (t * P.in_cell_num_luts + l)
      = t * P.in_cell_num_luts + l := by
    unfold SignalProp.bcIdx
    split
    · rename_i h
      exact (hEL1 h).symm
    · rfl
  rw [hB, hbc]
  have hrow : (t * P.in_cell_num_luts + l) * 4 + d
      = t * (P.in_cell_num_luts * 4) + l * 4 + d := by ring
  rw [hrow]
  simp only [SignalProp.aEntry]
  rw [hax, hay]
  rw [sum_grid_oneHot P.in_cell_lut_sz i j hi hj]
  unfold SignalProp.tableEntry
  have hq : (t * P.in_cell_num_luts + l) / P.in_cell_num_luts = t := by
    rw [mul_comm t P.in_cell_num_luts, Nat.mul_add_div hnl0, Nat.div_eq_of_lt hl,
      Nat.add_zero]
  have hr : (t * P.in_cell_num_luts + l) % P.in_cell_num_luts = l := by
    rw [mul_comm t P.in_cell_num_luts, Nat.mul_add_mod, Nat.mod_eq_of_lt hl]
  rw [hq, hr]

/-- C3 witness: concrete hard lookup on the 1x1 LUT of the concrete cell
arc — a constant one-hot attention head reads out table entry 5. -/
theorem c3_onehot_hard_lookup_witness :
    PW.lut_dup = 4
      ∧ SignalProp.axVec PW nfW nfW esW
          (0 * (PW.in_cell_num_luts * PW.lut_dup) + 0 * PW.lut_dup + 0)
          = oneHot PW.in_cell_lut_sz 0
      ∧ SignalProp.lutResult PW nfW nfW esW 0 (0 * PW.lut_dup + 0)
          = (esW.getD 0 ⟨0, 0, []⟩).ef.getD
              (SignalProp.axisLen PW + 0 * PW.in_cell_lut_sz ^ 2
                + (0 * PW.in_cell_lut_sz + 0)) 0 :=
  ⟨by decide, by decide
  , c3_onehot_hard_lookup PW nfW nfW esW 0 0 0 0 0 (by decide) (by decide) (by decide)
      (by decide) (by decide) (by decide) (by decide) (by decide)⟩

/-- C4 (evaluation at the failing configuration): the reshape group of
line 148 is the hardcoded constant 4, not self.lut_dup, so with lut_dup = 1
(one table, 1x1 grid, a single cell arc) the batched lookup is
shape-inadmissible: torch raises instead of producing
in_cell_num_luts * lut_dup = 1 scalar lookup results per edge, and the
teacher-forced forward pass produces no outputs. -/
theorem c4_lut_dup_reshape_hardcoded :
    SignalProp.cellShapeOk PB 1 = false
      ∧ (SignalProp.forward PB gW tsW nfW preW true).1 = none :=
  ⟨by decide, rfl⟩

end TimingPredict
